import Mathlib

/-!
Verification of the repository's four batch utilities:
`fix_json_complete.py` (JSON repair), `generate_country_mapping.py`
(country/region mapping generator and validator), `excel_to_json_refined.py`
(sheet converter) and `check_json_structure.py` (structure inspector).
Text is modelled as `List Char`.  Python library behaviour that the scripts
rely on (`re.sub` on the specific patterns appearing in the source,
`json.loads`, `dict`, `set`, `str.strip`, `sorted`, pandas `rename` and
`to_dict`) is embedded by executable Lean functions that follow the
documented semantics of those libraries on the inputs the scripts build.
-/

/-- Prefix test: `startsWithL p l` is true when the token `p` is a prefix of `l`
(character-by-character comparison). -/
def startsWithL : List Char → List Char → Bool
  | [], _ => true
  | _ :: _, [] => false
  | p :: ps, c :: cs => if p = c then startsWithL ps cs else false

/-- Substring test: `hasSeq tok l` is true when the token `tok` occurs as a contiguous
substring of `l` (Python's `tok in l` / `str.count > 0`). -/
def hasSeq (tok : List Char) : List Char → Bool
  | [] => tok.isEmpty
  | c :: rest => startsWithL tok (c :: rest) || hasSeq tok rest

/-- The three-character placeholder token `NaN`. -/
def nanTok : List Char := ['N', 'a', 'N']

/-- Model of `re.sub(r'NaN', 'null', content)` (line 54 of `fix_json_complete.py`):
replace every occurrence of the literal token `NaN` by `null`, scanning
left to right without overlap. -/
def replaceNaN : List Char → List Char
  | [] => []
  | 'N' :: 'a' :: 'N' :: rest => 'n' :: 'u' :: 'l' :: 'l' :: replaceNaN rest
  | c :: rest => c :: replaceNaN rest

/-- Whitespace class `\s` of the regular expressions in the repair ladder
(ASCII whitespace; the scripts' data is ASCII). -/
def isPySpace (c : Char) : Bool :=
  c = ' ' || c = '\t' || c = '\n' || c = '\r' || c = '\x0b' || c = '\x0c'

/-- Backtracking search of a greedy `\s*` followed by one character from
`terms`: returns the rightmost position inside the whitespace run holding
a character of `terms`, together with the run's remainder after it. -/
def lastTermSplit (terms : List Char) : List Char → Option (Char × List Char)
  | [] => none
  | c :: rest =>
    match lastTermSplit terms rest with
    | some (t, r) => some (t, r)
    | none => if terms.contains c then some (c, rest) else none

/-- Attempt of a single regex match `:\s*TOK\s*X` (for `X` one character of
`terms`) at a position whose `:` has just been consumed, `l` being the text
after the `:`.  Returns the matched terminator and the text after the match.
The leading `\s*` is effectively maximal because `TOK` never starts with a
whitespace character; the trailing `\s*` backtracks greedily, so when every
character of `terms` is non-whitespace the terminator can only follow the
whole whitespace run, and a whitespace terminator (`\n`, `\r`) matches at
its last occurrence inside the run. -/
def matchAfterColon (tok terms : List Char) (l : List Char) : Option (Char × List Char) :=
  let l1 := l.dropWhile isPySpace
  if startsWithL tok l1 then
    let l2 := l1.drop tok.length
    let w := l2.takeWhile isPySpace
    let rest0 := l2.dropWhile isPySpace
    match rest0 with
    | t :: r =>
      if terms.contains t then some (t, r)
      else
        match lastTermSplit terms w with
        | some (t2, w2) => some (t2, w2 ++ rest0)
        | none => none
    | [] =>
      match lastTermSplit terms w with
      | some (t2, w2) => some (t2, w2 ++ rest0)
      | none => none
  else none

/-- One pass of `re.sub(r':\s*TOK\s*(X)', r': null\1', content)`: scan left to
right; a match can only start at a `:`; on a match emit `: null` plus the
matched terminator and continue after the match; otherwise advance one
character.  The `fuel` argument only bounds the recursion and is set to the
text length by `substPass` (each step consumes at least one character). -/
def substAux (tok terms : List Char) : Nat → List Char → List Char
  | 0, l => l
  | _ + 1, [] => []
  | fuel + 1, c :: rest =>
    if c = ':' then
      match matchAfterColon tok terms rest with
      | some (t, rest2) =>
        ':' :: ' ' :: 'n' :: 'u' :: 'l' :: 'l' :: t :: substAux tok terms fuel rest2
      | none => ':' :: substAux tok terms fuel rest
    else c :: substAux tok terms fuel rest

/-- One whole `re.sub` pass over the text for pattern `:\s*TOK\s*(X)`. -/
def substPass (tok terms l : List Char) : List Char :=
  substAux tok terms l.length l

/-- The token `"NaN"` with double quotes (pattern 2 of the ladder). -/
def qNanTok : List Char := ['"', 'N', 'a', 'N', '"']

/-- The token `'NaN'` with single quotes (pattern 3 of the ladder). -/
def sqNanTok : List Char := ['\'', 'N', 'a', 'N', '\'']

/-- The token `undefined` (pattern 8 of the ladder). -/
def undefTok : List Char := ['u', 'n', 'd', 'e', 'f', 'i', 'n', 'e', 'd']

/-- The token `"undefined"` with double quotes (pattern 9 of the ladder). -/
def qUndefTok : List Char := ['"', 'u', 'n', 'd', 'e', 'f', 'i', 'n', 'e', 'd', '"']

/-- The full substitution ladder of `fix_json_complete` (lines 29-54 of
`fix_json_complete.py`): the seven `NaN` patterns, the two `undefined`
patterns, then the catch-all replacement of every remaining `NaN`. -/
def fixLadder (l : List Char) : List Char :=
  let c1 := substPass nanTok [',', '}'] l
  let c2 := substPass qNanTok [',', '}'] c1
  let c3 := substPass sqNanTok [',', '}'] c2
  let c4 := substPass nanTok [','] c3
  let c5 := substPass nanTok ['}'] c4
  let c6 := substPass nanTok ['\n'] c5
  let c7 := substPass nanTok ['\r'] c6
  let c8 := substPass undefTok [',', '}'] c7
  let c9 := substPass qUndefTok [',', '}'] c8
  replaceNaN c9

/-- The aggressive fallback `re.sub(r'[^"]*NaN[^"]*', 'null', content)`
(line 77 of `fix_json_complete.py`).  Because `[^"]` excludes only the
double quote and the token `NaN` contains no quote, a match starting inside
a maximal quote-free run extends (greedily, with backtracking on the first
`[^"]*`) from the start of that run to its end; so the substitution
replaces every maximal run of non-quote characters that contains `NaN` by
`null` and leaves the other runs and the quote characters unchanged.
As in `substAux`, `fuel` only bounds the recursion (one unit per step, at
least one character consumed per step). -/
def aggAux : Nat → List Char → List Char
  | 0, l => l
  | _ + 1, [] => []
  | fuel + 1, c :: rest =>
    if c = '"' then '"' :: aggAux fuel rest
    else
      (if hasSeq nanTok (c :: rest.takeWhile (fun d => !(d == '"'))) then
        ['n', 'u', 'l', 'l']
      else c :: rest.takeWhile (fun d => !(d == '"'))) ++
        aggAux fuel (rest.dropWhile (fun d => !(d == '"')))

/-- The aggressive fallback pass over the whole text. -/
def aggressiveClean (l : List Char) : List Char := aggAux l.length l

/-- Values returned by Python `json.loads`.  Numeric literals are kept as
their source token (Python converts them to `int`/`float`; distinct tokens
may denote the same float, which is irrelevant here because every claim
either compares a parse result against a concrete expected value or
compares the parses of two identical texts).  As Python's parser does by
default, the non-standard literals `NaN`, `Infinity` and `-Infinity` are
accepted. -/
inductive PyJson where
  | null : PyJson
  | bool : Bool → PyJson
  | num : String → PyJson
  | nan : PyJson
  | inf : Bool → PyJson
  | str : String → PyJson
  | arr : List PyJson → PyJson
  | obj : List (String × PyJson) → PyJson

/-- JSON whitespace skipped by Python's parser (space, tab, newline,
carriage return). -/
def isJsonWs (c : Char) : Bool := c = ' ' || c = '\t' || c = '\n' || c = '\r'

/-- Skip JSON whitespace. -/
def skipWs (l : List Char) : List Char := l.dropWhile isJsonWs

/-- Value of a hexadecimal digit. -/
def hexVal (c : Char) : Option Nat :=
  if '0' ≤ c ∧ c ≤ '9' then some (c.toNat - '0'.toNat)
  else if 'a' ≤ c ∧ c ≤ 'f' then some (c.toNat - 'a'.toNat + 10)
  else if 'A' ≤ c ∧ c ≤ 'F' then some (c.toNat - 'A'.toNat + 10)
  else none

/-- Single-character escapes of JSON strings. -/
def escMap (c : Char) : Option Char :=
  if c = '"' then some '"'
  else if c = '\\' then some '\\'
  else if c = '/' then some '/'
  else if c = 'b' then some '\x08'
  else if c = 'f' then some '\x0c'
  else if c = 'n' then some '\n'
  else if c = 'r' then some '\r'
  else if c = 't' then some '\t'
  else none

/-- Body of a JSON string, after the opening quote: strict mode (control
characters below U+0020 are rejected), standard escapes, `\uXXXX` mapped to
the code unit (surrogate pairs are not recombined; no claim exercises
them). -/
def parseStringBody (acc : List Char) : List Char → Option (String × List Char)
  | [] => none
  | '"' :: rest => some (String.mk acc.reverse, rest)
  | '\\' :: 'u' :: a :: b :: c :: d :: rest =>
    match hexVal a, hexVal b, hexVal c, hexVal d with
    | some x1, some x2, some x3, some x4 =>
      parseStringBody (Char.ofNat (((x1 * 16 + x2) * 16 + x3) * 16 + x4) :: acc) rest
    | _, _, _, _ => none
  | '\\' :: e :: rest =>
    match escMap e with
    | some c => parseStringBody (c :: acc) rest
    | none => none
  | c :: rest => if c.toNat < 32 then none else parseStringBody (c :: acc) rest

/-- Integer part of Python's JSON number regex `(-?(?:0|[1-9]\d*))`. -/
def parseIntPart : List Char → Option (List Char × List Char)
  | '0' :: r => some (['0'], r)
  | c :: r =>
    if c.isDigit then some (c :: r.takeWhile Char.isDigit, r.dropWhile Char.isDigit)
    else none
  | [] => none

/-- Optional fraction group `(\.\d+)?`. -/
def parseFrac (l : List Char) : List Char × List Char :=
  match l with
  | '.' :: r =>
    if (r.takeWhile Char.isDigit).isEmpty then ([], l)
    else ('.' :: r.takeWhile Char.isDigit, r.dropWhile Char.isDigit)
  | _ => ([], l)

/-- Optional exponent group `([eE][-+]?\d+)?`. -/
def parseExp (l : List Char) : List Char × List Char :=
  match l with
  | e :: r =>
    if e = 'e' ∨ e = 'E' then
      match r with
      | s :: r1 =>
        if s = '+' ∨ s = '-' then
          if (r1.takeWhile Char.isDigit).isEmpty then ([], l)
          else (e :: s :: r1.takeWhile Char.isDigit, r1.dropWhile Char.isDigit)
        else
          if (r.takeWhile Char.isDigit).isEmpty then ([], l)
          else (e :: r.takeWhile Char.isDigit, r.dropWhile Char.isDigit)
      | [] => ([], l)
    else ([], l)
  | [] => ([], l)

/-- A JSON number token at the head of the text, per Python's `NUMBER_RE`. -/
def parseNumber (l : List Char) : Option (String × List Char) :=
  let sp := match l with
    | '-' :: r => ((['-'] : List Char), r)
    | _ => (([] : List Char), l)
  match parseIntPart sp.2 with
  | some (ip, l2) =>
    let fp := parseFrac l2
    let ep := parseExp fp.2
    some (String.mk (sp.1 ++ ip ++ fp.1 ++ ep.1), ep.2)
  | none => none

/-- Python `dict` assignment `d[k] = v` on an association list: replace the
value in place if the key is present, else append the new binding. -/
def dictUpdJ (d : List (String × PyJson)) (k : String) (v : PyJson) :
    List (String × PyJson) :=
  match d with
  | [] => [(k, v)]
  | p :: rest => if p.1 = k then (k, v) :: rest else p :: dictUpdJ rest k v

/-- Members of a JSON object after the first key's opening position; `pv`
parses one value (the value parser one fuel level down). -/
def parseMembersF (pv : List Char → Option (PyJson × List Char)) :
    Nat → List Char → List (String × PyJson) → Option (PyJson × List Char)
  | 0, _, _ => none
  | fuel + 1, l, acc =>
    match l with
    | '"' :: rest =>
      match parseStringBody [] rest with
      | none => none
      | some (k, r1) =>
        match skipWs r1 with
        | ':' :: r2 =>
          match pv (skipWs r2) with
          | none => none
          | some (v, r3) =>
            match skipWs r3 with
            | ',' :: r4 => parseMembersF pv fuel (skipWs r4) (dictUpdJ acc k v)
            | '}' :: r4 => some (PyJson.obj (dictUpdJ acc k v), r4)
            | _ => none
        | _ => none
    | _ => none

/-- Elements of a JSON array after the first element's opening position. -/
def parseElemsF (pv : List Char → Option (PyJson × List Char)) :
    Nat → List Char → List PyJson → Option (PyJson × List Char)
  | 0, _, _ => none
  | fuel + 1, l, acc =>
    match pv l with
    | none => none
    | some (v, r) =>
      match skipWs r with
      | ',' :: r2 => parseElemsF pv fuel (skipWs r2) (acc ++ [v])
      | ']' :: r2 => some (PyJson.arr (acc ++ [v]), r2)
      | _ => none

/-- One JSON value at the head of the text (Python's `scan_once`). -/
def parseValue : Nat → List Char → Option (PyJson × List Char)
  | 0, _ => none
  | fuel + 1, l =>
    match l with
    | '"' :: rest =>
      match parseStringBody [] rest with
      | some (s, r) => some (PyJson.str s, r)
      | none => none
    | '{' :: rest =>
      match skipWs rest with
      | '}' :: r2 => some (PyJson.obj [], r2)
      | l2 => parseMembersF (parseValue fuel) fuel l2 []
    | '[' :: rest =>
      match skipWs rest with
      | ']' :: r2 => some (PyJson.arr [], r2)
      | l2 => parseElemsF (parseValue fuel) fuel l2 []
    | _ =>
      if startsWithL ['n', 'u', 'l', 'l'] l then some (PyJson.null, l.drop 4)
      else if startsWithL ['t', 'r', 'u', 'e'] l then some (PyJson.bool true, l.drop 4)
      else if startsWithL ['f', 'a', 'l', 's', 'e'] l then some (PyJson.bool false, l.drop 5)
      else
        match parseNumber l with
        | some (tok, r) => some (PyJson.num tok, r)
        | none =>
          if startsWithL ['N', 'a', 'N'] l then some (PyJson.nan, l.drop 3)
          else if startsWithL ['I', 'n', 'f', 'i', 'n', 'i', 't', 'y'] l then
            some (PyJson.inf false, l.drop 8)
          else if startsWithL ['-', 'I', 'n', 'f', 'i', 'n', 'i', 't', 'y'] l then
            some (PyJson.inf true, l.drop 9)
          else none

/-- Model of `json.loads`: skip leading whitespace, parse one value, require only
whitespace afterwards; `none` models a raised `JSONDecodeError`. -/
def pyParse (l : List Char) : Option PyJson :=
  match parseValue (2 * l.length + 2) (skipWs l) with
  | some (v, r) => if (skipWs r).isEmpty then some v else none
  | none => none

/-- The parse-and-fallback phase of `fix_json_complete` (lines 53-84): run
the substitution ladder, try `json.loads`; on failure apply the aggressive
pass and try once more; if that also fails the function returns `None`
(nothing has been written at that point — the output file is only written
after a successful parse). -/
def fix_json_parsePhase (content : List Char) : Option PyJson :=
  let cleaned := fixLadder content
  match pyParse cleaned with
  | some data => some data
  | none =>
    match pyParse (aggressiveClean cleaned) with
    | some data => some data
    | none => none

/-- Python `str.strip()` over ASCII whitespace: drop leading and trailing
whitespace characters. -/
def stripL (l : List Char) : List Char :=
  ((l.dropWhile isPySpace).reverse.dropWhile isPySpace).reverse

/-- Python `str.strip` lifted to `String`. -/
def pyStrip (s : String) : String := String.mk (stripL s.data)

/-- First binding of key `k` in a JSON object's field list (Python `dict`
lookup; parsed objects have unique keys). -/
def dictFindJ (fs : List (String × PyJson)) (k : String) : Option PyJson :=
  match fs with
  | [] => none
  | p :: rest => if p.1 = k then some p.2 else dictFindJ rest k

/-- Model of `record.get(k, '').strip()` (lines 35-36 of
`generate_country_mapping.py`): `none` models a raised exception —
`record.get` raises `AttributeError` when the record is not a dict, and
`.strip()` raises when the field's value is present but not a string. -/
def stripField (r : PyJson) (k : String) : Option String :=
  match r with
  | PyJson.obj fs =>
    match dictFindJ fs k with
    | some (PyJson.str s) => some (pyStrip s)
    | some _ => none
    | none => some ""
  | _ => none

/-- Membership-preserving model of a Python `set` of pairs, kept as a
duplicate-free list (only its cardinality is observable in the script). -/
def pairInsert (ps : List (String × String)) (p : String × String) :
    List (String × String) :=
  if ps.contains p then ps else ps ++ [p]

/-- Python `dict` assignment for string values (`country_to_region[country]
= region`): replace in place or append. -/
def dictUpd (d : List (String × String)) (k v : String) : List (String × String) :=
  match d with
  | [] => [(k, v)]
  | p :: rest => if p.1 = k then (k, v) :: rest else p :: dictUpd rest k v

/-- Lookup in a string-valued association list (Python `dict` access). -/
def lookupStr (d : List (String × String)) (k : String) : Option String :=
  match d with
  | [] => none
  | p :: rest => if p.1 = k then some p.2 else lookupStr rest k

/-- Python `set.add` modelled on a duplicate-free list. -/
def setAdd (s : List String) (c : String) : List String :=
  if s.contains c then s else s ++ [c]

/-- Model of `region_to_countries[region].add(country)` on a `defaultdict(set)`:
add to the existing entry, or create a new entry holding `{country}`. -/
def rtcAdd (d : List (String × List String)) (g c : String) :
    List (String × List String) :=
  match d with
  | [] => [(g, [c])]
  | p :: rest => if p.1 = g then (p.1, setAdd p.2 c) :: rest else p :: rtcAdd rest g c

/-- Accumulator state of the record loop (lines 30-41). -/
structure GenState where
  pairs : List (String × String)
  country_to_region : List (String × String)
  region_to_countries : List (String × List String)

/-- The empty initial state. -/
def initState : GenState := ⟨[], [], []⟩

/-- One iteration of the record loop (lines 34-41): strip the `Country` and
`Region` fields; if both are non-empty record the pair, update the
country→region dict and the region→countries sets; `none` models an
exception escaping to the generic handler. -/
def processRecord (st : GenState) (r : PyJson) : Option GenState :=
  match stripField r "Country", stripField r "Region" with
  | some c, some g =>
    if c ≠ "" ∧ g ≠ "" then
      some ⟨pairInsert st.pairs (c, g), dictUpd st.country_to_region c g,
            rtcAdd st.region_to_countries g c⟩
    else some st
  | _, _ => none

/-- The whole record loop. -/
def runRecords (st : GenState) : List PyJson → Option GenState
  | [] => some st
  | r :: rest =>
    match processRecord st r with
    | some st2 => runRecords st2 rest
    | none => none

/-- Lexicographic comparison of strings by code point (Python `str` order). -/
def charLe : List Char → List Char → Bool
  | [], _ => true
  | _ :: _, [] => false
  | a :: as, b :: bs => if a = b then charLe as bs else decide (a < b)

/-- Insertion into a sorted list of strings. -/
def insertSorted (x : String) : List String → List String
  | [] => [x]
  | y :: ys => if charLe x.data y.data then x :: y :: ys else y :: insertSorted x ys

/-- Python `sorted(list(countries))` on a set of distinct strings. -/
def sortStrings (l : List String) : List String := l.foldr insertSorted []

/-- The output object written to `country_region_mapping.json`. -/
structure Mapping where
  region_to_countries : List (String × List String)
  country_to_region : List (String × String)

/-- Lines 44-53: freeze each region's country set into a sorted list and
assemble the output object. -/
def freeze (st : GenState) : Mapping :=
  ⟨st.region_to_countries.map (fun p => (p.1, sortStrings p.2)), st.country_to_region⟩

/-- Model of `generate_country_mapping` on the already-loaded list of records:
`none` models the generic `except` path (lines 78-80), which returns `None`
without writing the output file. -/
def generate_country_mapping (data : List PyJson) : Option Mapping :=
  match runRecords initState data with
  | some st => some (freeze st)
  | none => none

/-- The countries reachable through `region_to_countries`
(`all_countries_in_regions` of `validate_mapping`, lines 108-110; the set
union is modelled by concatenation, which is membership-faithful). -/
def allCountriesInRegions (m : Mapping) : List String :=
  (m.region_to_countries.map (fun p => p.2)).flatten

/-- The key set of `country_to_region` (line 112). -/
def mappingKeys (m : Mapping) : List String :=
  m.country_to_region.map (fun p => p.1)

/-- Membership test on a list of strings (Python `in` on a set). -/
def containsStr (l : List String) (a : String) : Bool :=
  match l with
  | [] => false
  | x :: rest => if x = a then true else containsStr rest a

/-- The consistency check of `validate_mapping` (line 114):
`set(all_countries_in_regions) == set(country_to_region.keys())`, expressed
by double inclusion.  The validator only reports a discrepancy (lines
115-121); it repairs nothing and still returns `True`. -/
def validateConsistent (m : Mapping) : Bool :=
  (allCountriesInRegions m).all (fun c => containsStr (mappingKeys m) c) &&
    (mappingKeys m).all (fun c => containsStr (allCountriesInRegions m) c)

/-- A pandas data frame: ordered column labels and rectangular rows. -/
structure DataFrame (Cell : Type) where
  cols : List String
  rows : List (List Cell)

/-- The fixed column-name table of `excel_to_json_refined.py` (lines 15-25). -/
def column_mapping : List (String × String) :=
  [("Please indicate the maturity stage of your solution.", "Maturity stage"),
   ("If the solution has already been implemented, please specify the location(s). Alternatively, please enter \"not applicable\".",
    "Implementation location(s)"),
   ("If the solution has already been implemented, please specify the related timeline(s). Alternatively, please enter \"not applicable\".",
    "Implementation timeline(s)"),
   ("What is the estimated duration to pilot your solution in a new geography?",
    "Duration to pilot in a new geography"),
   ("Which SDGs are addressed by your solution?", "SDGs addressed"),
   ("What is the desired impact of your solution?", "Desired impact"),
   ("What are the key technology(ies) used for your solution?", "Key technologies"),
   ("What are the unique/differentiated characteristics of your solution?",
    "Unique Characteristics"),
   ("How does your solution contribute to create sustainable, systemic change? ",
    "Sustainable Change")]

/-- Rename one column label: replaced by the table's value when the label is
a key of the table, unchanged otherwise (`df.rename(columns=...)`). -/
def renameOne (m : List (String × String)) (c : String) : String :=
  match m.find? (fun p => p.1 == c) with
  | some p => p.2
  | none => c

/-- Model of `df.rename(columns=m)`: relabel every column. -/
def renameCols {Cell : Type} (m : List (String × String)) (df : DataFrame Cell) :
    DataFrame Cell :=
  ⟨df.cols.map (renameOne m), df.rows⟩

/-- Model of `df.to_dict('records')`: one record per row, pairing each column label
with the row's cell (the frames the script builds have distinct labels). -/
def toRecords {Cell : Type} (df : DataFrame Cell) : List (List (String × Cell)) :=
  df.rows.map (fun row => df.cols.zip row)

/-- The JSON value written by the sheet converter: a flat record list for a
single sheet, a sheet-name-keyed mapping otherwise. -/
inductive ConvOut (Cell : Type) where
  | single : List (List (String × Cell)) → ConvOut Cell
  | multi : List (String × List (List (String × Cell))) → ConvOut Cell

/-- Model of `excel_to_json_refined` on the loaded workbook (lines 27-54): if the
workbook has exactly one sheet, rename its columns and emit the flat record
list; otherwise rename and emit per-sheet record lists keyed by sheet
name. -/
def excel_to_json_refined {Cell : Type} (wb : List (String × DataFrame Cell)) :
    ConvOut Cell :=
  match wb with
  | [(_, df)] => ConvOut.single (toRecords (renameCols column_mapping df))
  | _ => ConvOut.multi (wb.map (fun p => (p.1, toRecords (renameCols column_mapping p.2))))

/-- The outcome of opening and reading the input file: missing
(`FileNotFoundError` from `open`) or its text. -/
inductive FileInput where
  | missing : FileInput
  | content : List Char → FileInput

/-- Python `len` on a parsed JSON value; `none` models the `TypeError`
raised on values without a length. -/
def pyLen : PyJson → Option Nat
  | PyJson.str s => some s.length
  | PyJson.arr xs => some xs.length
  | PyJson.obj fs => some fs.length
  | _ => none

/-- Python `.keys()` on a parsed JSON value; `none` models the
`AttributeError` raised on non-dict values. -/
def pyKeys : PyJson → Option (List String)
  | PyJson.obj fs => some (fs.map (fun p => p.1))
  | _ => none

/-- The fallible operations of the inspection body of
`check_json_structure.py` (lines 9-47) in source order; everything else in
the body only formats and prints.  For a non-empty dict the body calls
`len` on the first value (line 18) and, when that value is a non-empty
list, `.keys()` on its first item (line 20); for a non-empty list it calls
`.keys()` on the first record (line 24); the dashboard branch (lines 27-46)
only uses `in`, indexing with a checked key and `type(...)`, which cannot
raise.  `none` models an exception reaching the `except` handler. -/
def inspectBody (data : PyJson) : Option Unit :=
  match data with
  | PyJson.obj [] => some ()
  | PyJson.obj ((_, v) :: _) =>
    match pyLen v with
    | none => none
    | some _ =>
      match v with
      | PyJson.arr (x :: _) =>
        match pyKeys x with
        | some _ => some ()
        | none => none
      | _ => some ()
  | PyJson.arr [] => some ()
  | PyJson.arr (x :: _) =>
    match pyKeys x with
    | some _ => some ()
    | none => none
  | _ => some ()

/-- Model of `check_json_structure` (lines 3-52): read the file, parse it, run the
diagnostic body and return the parsed data; every raised error (missing
file, parse error, and any error inside the body) is caught by the
function's single broad `except`, which prints and returns `None`. -/
def check_json_structure (input : FileInput) : Option PyJson :=
  match input with
  | FileInput.missing => none
  | FileInput.content text =>
    match pyParse text with
    | none => none
    | some data =>
      match inspectBody data with
      | some _ => some data
      | none => none

/-- The region recorded by the last record in input order whose trimmed
`Country` equals `c`, with both trimmed fields non-empty (the records the
loop does not skip). -/
def lastRegionFor (data : List PyJson) (c : String) : Option String :=
  match data with
  | [] => none
  | r :: rest =>
    match lastRegionFor rest c with
    | some g => some g
    | none =>
      match stripField r "Country", stripField r "Region" with
      | some c2, some g => if c2 = c ∧ c2 ≠ "" ∧ g ≠ "" then some g else none
      | _, _ => none

/-- The record (a parsed dict) carries key `k` with a value that is present
but not a string. -/
def fieldNonString (r : PyJson) (k : String) : Bool :=
  match r with
  | PyJson.obj fs =>
    match dictFindJ fs k with
    | some (PyJson.str _) => false
    | some _ => true
    | none => false
  | _ => false

/-- The spec's example records `[{"Country":"Kenya","Region":"Africa"},
{"Country":"Peru","Region":"Americas"}]`. -/
def exampleRecords : List PyJson :=
  [PyJson.obj [("Country", PyJson.str "Kenya"), ("Region", PyJson.str "Africa")],
   PyJson.obj [("Country", PyJson.str "Peru"), ("Region", PyJson.str "Americas")]]

/-- Records that give the single country `X` two different regions. -/
def dupCountryRecords : List PyJson :=
  [PyJson.obj [("Country", PyJson.str "X"), ("Region", PyJson.str "A")],
   PyJson.obj [("Country", PyJson.str "X"), ("Region", PyJson.str "B")]]

/-- The mapping the generator produces from `dupCountryRecords`. -/
def dupCountryMapping : Mapping :=
  ⟨[("A", ["X"]), ("B", ["X"])], [("X", "B")]⟩

/-- Records used to exercise last-write-wins on a duplicated country. -/
def kenyaTwiceRecords : List PyJson :=
  [PyJson.obj [("Country", PyJson.str "Kenya"), ("Region", PyJson.str "Africa")],
   PyJson.obj [("Country", PyJson.str "Kenya"), ("Region", PyJson.str "Americas")]]

/-- The mapping the generator produces from `kenyaTwiceRecords`. -/
def kenyaTwiceMapping : Mapping :=
  ⟨[("Africa", ["Kenya"]), ("Americas", ["Kenya"])], [("Kenya", "Americas")]⟩

/-- A record whose `Country` value is present but `null`. -/
def badCountryRecord : PyJson :=
  PyJson.obj [("Country", PyJson.null), ("Region", PyJson.str "Africa")]

/-- The spec's example repair input `{"score": NaN}` (braces escaped). -/
def scoreNanText : List Char := "\x7b\"score\": NaN\x7d".data

/-- The repaired text `{"score": null}` (braces escaped). -/
def scoreNullText : List Char := "\x7b\"score\": null\x7d".data

/-- A text holding `NaN` after a colon and before a closing brace (a
recognized context) that is not otherwise valid JSON. -/
def strayNanText : List Char := ": NaN\x7d".data

/-- Valid JSON whose only value is the string `"NaN"`. -/
def quotedNanText : List Char := "\x7b\"a\": \"NaN\"\x7d".data

/-- A valid JSON text containing neither `NaN` nor `undefined`. -/
def plainJsonText : List Char := "\x7b\"a\": 1\x7d".data

/-- Invariant relating the two accumulated mappings: the countries stored in
the region sets are exactly the keys of the country→region dict. -/
def stInv (st : GenState) : Prop :=
  ∀ a, (∃ p ∈ st.region_to_countries, a ∈ p.2) ↔
    a ∈ st.country_to_region.map (fun p => p.1)

/-- The mapping the generator produces from `exampleRecords`. -/
def exampleMapping : Mapping :=
  ⟨[("Africa", ["Kenya"]), ("Americas", ["Peru"])],
   [("Kenya", "Africa"), ("Peru", "Americas")]⟩

/-- A concrete two-column single-sheet frame used as witness input; its
first column is a key of the rename table, the second is not. -/
def sheetOneFrame : DataFrame Nat :=
  ⟨["Which SDGs are addressed by your solution?", "Country"], [[1, 2], [3, 4]]⟩

/-- A workbook holding exactly the one sheet `sheetOneFrame`. -/
def wbSingle : List (String × DataFrame Nat) := [("Sheet1", sheetOneFrame)]

theorem startsWithL_iff_append (p l : List Char) :
    startsWithL p l = true ↔ ∃ r, l = p ++ r := by
  induction p generalizing l with
  | nil => simp [startsWithL]
  | cons x xs ih =>
    cases l with
    | nil => simp [startsWithL]
    | cons c cs =>
      simp only [startsWithL]
      by_cases hx : x = c
      · subst hx
        rw [if_pos rfl, ih]
        constructor
        · rintro ⟨r, rfl⟩; exact ⟨r, rfl⟩
        · rintro ⟨r, hr⟩
          injection hr with h1 h2
          exact ⟨r, h2⟩
      · rw [if_neg hx]
        constructor
        · intro h; exact absurd h (by simp)
        · rintro ⟨r, hr⟩
          injection hr with h1 h2
          exact absurd h1.symm hx

theorem hasSeq_of_startsWithL {tok l : List Char} (h : startsWithL tok l = true) :
    hasSeq tok l = true := by
  cases l with
  | nil =>
    cases tok with
    | nil => rfl
    | cons x xs => simp [startsWithL] at h
  | cons c cs => simp [hasSeq, h]

theorem hasSeq_cons_of {tok : List Char} (c : Char) {rest : List Char}
    (h : hasSeq tok rest = true) : hasSeq tok (c :: rest) = true := by
  simp [hasSeq, h]

theorem hasSeq_append_right {tok b : List Char} (a : List Char)
    (h : hasSeq tok b = true) : hasSeq tok (a ++ b) = true := by
  induction a with
  | nil => simpa using h
  | cons c cs ih => exact hasSeq_cons_of c ih

theorem startsWithL_append {p a : List Char} (b : List Char)
    (h : startsWithL p a = true) : startsWithL p (a ++ b) = true := by
  rcases (startsWithL_iff_append p a).mp h with ⟨r, rfl⟩
  exact (startsWithL_iff_append p _).mpr ⟨r ++ b, by simp⟩

theorem hasSeq_append_left {tok a : List Char} (b : List Char)
    (h : hasSeq tok a = true) : hasSeq tok (a ++ b) = true := by
  induction a with
  | nil =>
    cases tok with
    | nil => exact hasSeq_of_startsWithL rfl
    | cons x xs => simp [hasSeq] at h
  | cons c cs ih =>
    simp only [hasSeq, Bool.or_eq_true] at h
    rcases h with h | h
    · exact hasSeq_of_startsWithL (startsWithL_append b h)
    · exact hasSeq_cons_of c (ih h)

theorem hasSeq_trans {a b l : List Char} (hab : hasSeq a b = true)
    (hbl : hasSeq b l = true) : hasSeq a l = true := by
  induction l with
  | nil =>
    cases b with
    | nil => simpa using hab
    | cons x xs => simp [hasSeq] at hbl
  | cons c cs ih =>
    simp only [hasSeq, Bool.or_eq_true] at hbl
    rcases hbl with h | h
    · rcases (startsWithL_iff_append b _).mp h with ⟨r, hr⟩
      rw [hr]
      exact hasSeq_append_left r hab
    · exact hasSeq_cons_of c (ih h)

theorem hasSeq_cons_false {tok : List Char} {c : Char} {rest : List Char}
    (h : hasSeq tok (c :: rest) = false) :
    startsWithL tok (c :: rest) = false ∧ hasSeq tok rest = false := by
  simpa [hasSeq] using h

/-- Unfolding equation for the fall-through branch of `replaceNaN`. -/
theorem replaceNaN_cons_eq {c : Char} {rest : List Char}
    (h : ∀ t : List Char, c = 'N' → rest = 'a' :: 'N' :: t → False) :
    replaceNaN (c :: rest) = c :: replaceNaN rest := by
  rw [replaceNaN.eq_def]
  split
  · rename_i heq; cases heq
  · rename_i heq
    injection heq with h1 h2
    exact (h _ h1 h2).elim
  · rename_i heq
    injection heq with h1 h2
    rw [← h1, ← h2]

/-- The head of `replaceNaN l` is the head of `l` or the letter `n`
(start of a `null` replacement). -/
theorem replaceNaN_head (l : List Char) :
    (replaceNaN l).head? = l.head? ∨ (replaceNaN l).head? = some 'n' := by
  induction l using replaceNaN.induct with
  | case1 => exact Or.inl rfl
  | case2 rest _ => exact Or.inr rfl
  | case3 c rest h _ => rw [replaceNaN_cons_eq h]; exact Or.inl rfl

theorem startsWithL_head {p : Char} {ps l : List Char}
    (h : startsWithL (p :: ps) l = true) : l.head? = some p := by
  cases l with
  | nil => simp [startsWithL] at h
  | cons c cs =>
    simp only [startsWithL] at h
    by_cases hp : p = c
    · simp [hp]
    · rw [if_neg hp] at h; cases h

/-- After the catch-all substitution `re.sub(r'NaN', 'null', ...)` the text
contains no occurrence of the token `NaN`. -/
theorem replaceNaN_no_nan (l : List Char) :
    hasSeq nanTok (replaceNaN l) = false := by
  induction l using replaceNaN.induct with
  | case1 => rfl
  | case2 rest ih =>
    show hasSeq nanTok ('n' :: 'u' :: 'l' :: 'l' :: replaceNaN rest) = false
    simpa [hasSeq, startsWithL, nanTok] using ih
  | case3 c rest h ih =>
    rw [replaceNaN_cons_eq h]
    simp only [hasSeq, Bool.or_eq_false_iff]
    refine ⟨?_, ih⟩
    by_cases hc : c = 'N'
    · subst hc
      show startsWithL nanTok ('N' :: replaceNaN rest) = false
      simp only [nanTok, startsWithL, if_pos rfl]
      cases hS : startsWithL ['a', 'N'] (replaceNaN rest)
      · rfl
      · exfalso
        have hhead := startsWithL_head hS
        cases rest with
        | nil => simp [replaceNaN] at hhead
        | cons d rest2 =>
          by_cases hd : d = 'a'
          · subst hd
            have hR2 : replaceNaN ('a' :: rest2) = 'a' :: replaceNaN rest2 :=
              replaceNaN_cons_eq (by intro t ha _; cases ha)
            rw [hR2] at hS
            simp only [startsWithL, if_pos rfl] at hS
            have hhead2 := startsWithL_head hS
            rcases replaceNaN_head rest2 with hcase | hcase
            · rw [hhead2] at hcase
              cases rest2 with
              | nil => simp at hcase
              | cons e rest3 =>
                have he : e = 'N' := by
                  injection hcase.symm with hee
                exact h rest3 rfl (by rw [he])
            · rw [hhead2] at hcase
              injection hcase with hNn
              exact absurd hNn (by decide)
          · rcases replaceNaN_head (d :: rest2) with hcase | hcase
            · rw [hhead] at hcase
              injection hcase.symm with hda
              exact hd hda
            · rw [hhead] at hcase
              injection hcase with han
              exact absurd han (by decide)
    · show startsWithL nanTok (c :: replaceNaN rest) = false
      simp only [nanTok, startsWithL]
      rw [if_neg (fun hh => hc hh.symm)]

/-- If the text contains no `NaN`, the catch-all substitution changes nothing. -/
theorem replaceNaN_id {l : List Char} (h : hasSeq nanTok l = false) :
    replaceNaN l = l := by
  induction l using replaceNaN.induct with
  | case1 => rfl
  | case2 rest ih =>
    exfalso
    have : startsWithL nanTok ('N' :: 'a' :: 'N' :: rest) = true := by
      simp [nanTok, startsWithL]
    rw [hasSeq_of_startsWithL this] at h
    cases h
  | case3 c rest h2 ih =>
    have hparts := hasSeq_cons_false h
    rw [replaceNaN_cons_eq h2, ih hparts.2]

/-- The output of the whole substitution ladder never contains `NaN`
(the catch-all final pass removes every occurrence). -/
theorem fixLadder_no_nan (l : List Char) : hasSeq nanTok (fixLadder l) = false :=
  replaceNaN_no_nan _

/-- A successful match of `:\s*TOK\s*X` requires the token to occur in the
text after the colon. -/
theorem matchAfterColon_hasSeq {tok terms l : List Char} {x : Char × List Char}
    (h : matchAfterColon tok terms l = some x) : hasSeq tok l = true := by
  cases hS : startsWithL tok (l.dropWhile isPySpace)
  · exfalso
    simp [matchAfterColon, hS] at h
  · have h1 := hasSeq_of_startsWithL hS
    have h2 := hasSeq_append_right (l.takeWhile isPySpace) h1
    rwa [List.takeWhile_append_dropWhile] at h2

/-- A substitution pass for a token that does not occur in the text is the
identity. -/
theorem substAux_id {tok terms : List Char} (fuel : Nat) {l : List Char}
    (h : hasSeq tok l = false) : substAux tok terms fuel l = l := by
  induction fuel generalizing l with
  | zero => rfl
  | succ fuel ih =>
    cases l with
    | nil => rfl
    | cons c rest =>
      have hparts := hasSeq_cons_false h
      simp only [substAux]
      by_cases hc : c = ':'
      · rw [if_pos hc]
        cases hm : matchAfterColon tok terms rest with
        | some x =>
          exact absurd (matchAfterColon_hasSeq hm) (by simp [hparts.2])
        | none => rw [ih hparts.2, hc]
      · rw [if_neg hc, ih hparts.2]

theorem substPass_id {tok terms : List Char} {l : List Char}
    (h : hasSeq tok l = false) : substPass tok terms l = l :=
  substAux_id _ h

/-- The predicate `hasSeq` is antitone along the substring order of the tokens: if `a`
occurs in `b` and `a` does not occur in `l`, then `b` does not occur in
`l`. -/
theorem hasSeq_false_mono {a b l : List Char} (hab : hasSeq a b = true)
    (h : hasSeq a l = false) : hasSeq b l = false := by
  cases hb : hasSeq b l
  · rfl
  · rw [hasSeq_trans hab hb] at h; cases h

/-- If the text contains neither `NaN` nor `undefined`, the whole
substitution ladder is the identity. -/
theorem fixLadder_id {l : List Char} (h1 : hasSeq nanTok l = false)
    (h2 : hasSeq undefTok l = false) : fixLadder l = l := by
  have q1 : hasSeq qNanTok l = false := hasSeq_false_mono (by decide) h1
  have q2 : hasSeq sqNanTok l = false := hasSeq_false_mono (by decide) h1
  have q3 : hasSeq qUndefTok l = false := hasSeq_false_mono (by decide) h2
  simp only [fixLadder]
  rw [substPass_id h1, substPass_id q1, substPass_id q2, substPass_id h1,
      substPass_id h1, substPass_id h1, substPass_id h1, substPass_id h2,
      substPass_id q3, replaceNaN_id h1]

/-- On text without `NaN` the aggressive pass changes nothing. -/
theorem aggAux_id (fuel : Nat) {l : List Char} (h : hasSeq nanTok l = false) :
    aggAux fuel l = l := by
  induction fuel generalizing l with
  | zero => rfl
  | succ fuel ih =>
    cases l with
    | nil => rfl
    | cons c rest =>
      have hparts := hasSeq_cons_false h
      simp only [aggAux]
      by_cases hq : c = '"'
      · rw [if_pos hq, ih hparts.2, hq]
      · rw [if_neg hq]
        have hdecomp :
            (c :: rest.takeWhile (fun d => !(d == '"'))) ++
              rest.dropWhile (fun d => !(d == '"')) = c :: rest := by
          rw [List.cons_append, List.takeWhile_append_dropWhile]
        have hrun : hasSeq nanTok (c :: rest.takeWhile (fun d => !(d == '"'))) = false := by
          cases hcase : hasSeq nanTok (c :: rest.takeWhile (fun d => !(d == '"')))
          · rfl
          · exfalso
            have hfull := hasSeq_append_left (rest.dropWhile (fun d => !(d == '"'))) hcase
            rw [hdecomp, h] at hfull
            cases hfull
        have hdrop : hasSeq nanTok (rest.dropWhile (fun d => !(d == '"'))) = false := by
          cases hcase : hasSeq nanTok (rest.dropWhile (fun d => !(d == '"')))
          · rfl
          · exfalso
            have hfull := hasSeq_append_right (c :: rest.takeWhile (fun d => !(d == '"'))) hcase
            rw [hdecomp, h] at hfull
            cases hfull
        rw [hrun, if_neg (by simp), ih hdrop]
        exact hdecomp

/-- On text without `NaN` the aggressive fallback is the identity. -/
theorem aggressiveClean_id {l : List Char} (h : hasSeq nanTok l = false) :
    aggressiveClean l = l :=
  aggAux_id _ h

theorem lookupStr_dictUpd (d : List (String × String)) (k v k2 : String) :
    lookupStr (dictUpd d k v) k2 = if k2 = k then some v else lookupStr d k2 := by
  induction d with
  | nil =>
    by_cases h : k2 = k
    · simp [dictUpd, lookupStr, h]
    · have h2 : ¬(k = k2) := fun hh => h hh.symm
      simp [dictUpd, lookupStr, h, h2]
  | cons p rest ih =>
    simp only [dictUpd]
    by_cases hp : p.1 = k
    · rw [if_pos hp]
      by_cases h : k2 = k
      · simp [lookupStr, h]
      · have h2 : ¬(k = k2) := fun hh => h hh.symm
        have h3 : ¬(p.1 = k2) := by rw [hp]; exact h2
        simp [lookupStr, h, h2, h3]
    · rw [if_neg hp]
      by_cases h3 : p.1 = k2
      · have h4 : ¬(k2 = k) := fun hh => hp (h3.trans hh)
        simp [lookupStr, h3, h4]
      · simp [lookupStr, h3, ih]

theorem mem_keys_dictUpd (d : List (String × String)) (k v a : String) :
    a ∈ (dictUpd d k v).map (fun p => p.1) ↔ a = k ∨ a ∈ d.map (fun p => p.1) := by
  induction d with
  | nil => simp [dictUpd]
  | cons p rest ih =>
    simp only [dictUpd]
    by_cases hp : p.1 = k
    · rw [if_pos hp]
      simp [hp]
    · rw [if_neg hp]
      simp only [List.map_cons, List.mem_cons, ih]
      tauto

theorem mem_setAdd (s : List String) (c a : String) :
    a ∈ setAdd s c ↔ a = c ∨ a ∈ s := by
  unfold setAdd
  by_cases h : s.contains c
  · rw [if_pos h]
    have hc : c ∈ s := by simpa using h
    constructor
    · intro ha; exact Or.inr ha
    · rintro (rfl | ha)
      · exact hc
      · exact ha
  · rw [if_neg h]
    simp [or_comm]

theorem mem_rtcAdd (d : List (String × List String)) (g c a : String) :
    (∃ p ∈ rtcAdd d g c, a ∈ p.2) ↔ a = c ∨ ∃ p ∈ d, a ∈ p.2 := by
  induction d with
  | nil => simp [rtcAdd]
  | cons p rest ih =>
    simp only [rtcAdd]
    by_cases hp : p.1 = g
    · rw [if_pos hp]
      constructor
      · rintro ⟨q, hq, haq⟩
        rcases List.mem_cons.mp hq with hq1 | hq1
        · rw [hq1] at haq
          rcases (mem_setAdd p.2 c a).mp haq with h1 | h1
          · exact Or.inl h1
          · exact Or.inr ⟨p, List.mem_cons_self p rest, h1⟩
        · exact Or.inr ⟨q, List.mem_cons_of_mem p hq1, haq⟩
      · intro hcase
        rcases hcase with h1 | ⟨q, hq, haq⟩
        · exact ⟨(p.1, setAdd p.2 c), List.mem_cons_self _ _,
            (mem_setAdd p.2 c a).mpr (Or.inl h1)⟩
        · rcases List.mem_cons.mp hq with hq1 | hq1
          · refine ⟨(p.1, setAdd p.2 c), List.mem_cons_self _ _,
              (mem_setAdd p.2 c a).mpr (Or.inr ?_)⟩
            rw [← hq1]
            exact haq
          · exact ⟨q, List.mem_cons_of_mem _ hq1, haq⟩
    · rw [if_neg hp]
      constructor
      · rintro ⟨q, hq, haq⟩
        rcases List.mem_cons.mp hq with hq1 | hq1
        · exact Or.inr ⟨p, List.mem_cons_self _ _, hq1 ▸ haq⟩
        · rcases ih.mp ⟨q, hq1, haq⟩ with h1 | ⟨q2, hq2, haq2⟩
          · exact Or.inl h1
          · exact Or.inr ⟨q2, List.mem_cons_of_mem _ hq2, haq2⟩
      · intro hcase
        rcases hcase with h1 | ⟨q, hq, haq⟩
        · rcases ih.mpr (Or.inl h1) with ⟨q2, hq2, haq2⟩
          exact ⟨q2, List.mem_cons_of_mem _ hq2, haq2⟩
        · rcases List.mem_cons.mp hq with hq1 | hq1
          · exact ⟨p, List.mem_cons_self _ _, hq1 ▸ haq⟩
          · rcases ih.mpr (Or.inr ⟨q, hq1, haq⟩) with ⟨q2, hq2, haq2⟩
            exact ⟨q2, List.mem_cons_of_mem _ hq2, haq2⟩

theorem mem_insertSorted (x a : String) (l : List String) :
    a ∈ insertSorted x l ↔ a = x ∨ a ∈ l := by
  induction l with
  | nil => simp [insertSorted]
  | cons y ys ih =>
    simp only [insertSorted]
    by_cases h : charLe x.data y.data
    · rw [if_pos h]; simp
    · rw [if_neg h]
      simp only [List.mem_cons, ih]
      tauto

theorem mem_sortStrings (l : List String) (a : String) :
    a ∈ sortStrings l ↔ a ∈ l := by
  induction l with
  | nil => simp [sortStrings]
  | cons x xs ih =>
    show a ∈ insertSorted x (sortStrings xs) ↔ a ∈ x :: xs
    rw [mem_insertSorted]
    simp [ih]

theorem processRecord_inv {st st2 : GenState} {r : PyJson}
    (h : processRecord st r = some st2) (hinv : stInv st) : stInv st2 := by
  cases hC : stripField r "Country" with
  | none => simp [processRecord, hC] at h
  | some c =>
    cases hG : stripField r "Region" with
    | none => simp [processRecord, hC, hG] at h
    | some g =>
      simp only [processRecord, hC, hG] at h
      by_cases hcg : c ≠ "" ∧ g ≠ ""
      · rw [if_pos hcg] at h
        injection h with h2
        subst h2
        intro a
        show (∃ p ∈ rtcAdd st.region_to_countries g c, a ∈ p.2) ↔
          a ∈ (dictUpd st.country_to_region c g).map (fun p => p.1)
        rw [mem_rtcAdd, mem_keys_dictUpd]
        exact or_congr Iff.rfl (hinv a)
      · rw [if_neg hcg] at h
        injection h with h2
        subst h2
        exact hinv

theorem runRecords_inv {data : List PyJson} {st st2 : GenState}
    (h : runRecords st data = some st2) (hinv : stInv st) : stInv st2 := by
  induction data generalizing st with
  | nil =>
    simp only [runRecords] at h
    injection h with h2
    subst h2
    exact hinv
  | cons r rest ih =>
    simp only [runRecords] at h
    cases hm : processRecord st r with
    | none => rw [hm] at h; exact absurd h (by simp)
    | some st1 =>
      rw [hm] at h
      exact ih h (processRecord_inv hm hinv)

theorem runRecords_lookup {data : List PyJson} {st st2 : GenState}
    (h : runRecords st data = some st2) (c : String) :
    lookupStr st2.country_to_region c =
      match lastRegionFor data c with
      | some g => some g
      | none => lookupStr st.country_to_region c := by
  induction data generalizing st with
  | nil =>
    simp only [runRecords] at h
    injection h with h2
    subst h2
    rfl
  | cons r rest ih =>
    simp only [runRecords] at h
    cases hm : processRecord st r with
    | none => rw [hm] at h; exact absurd h (by simp)
    | some st1 =>
      rw [hm] at h
      have hih := ih h
      cases hlast : lastRegionFor rest c with
      | some g =>
        rw [hlast] at hih
        simp only [lastRegionFor, hlast]
        exact hih
      | none =>
        rw [hlast] at hih
        simp only at hih
        cases hC : stripField r "Country" with
        | none => simp [processRecord, hC] at hm
        | some c2 =>
          cases hG : stripField r "Region" with
          | none => simp [processRecord, hC, hG] at hm
          | some g2 =>
            simp only [processRecord, hC, hG] at hm
            simp only [lastRegionFor, hlast, hC, hG]
            by_cases hcg : c2 ≠ "" ∧ g2 ≠ ""
            · rw [if_pos hcg] at hm
              injection hm with hm2
              subst hm2
              simp only at hih
              rw [hih]
              show lookupStr (dictUpd st.country_to_region c2 g2) c = _
              rw [lookupStr_dictUpd]
              by_cases hcc : c = c2
              · rw [if_pos hcc]
                have hcond : c2 = c ∧ c2 ≠ "" ∧ g2 ≠ "" := ⟨hcc.symm, hcg⟩
                rw [if_pos hcond]
              · rw [if_neg hcc]
                have hcond : ¬(c2 = c ∧ c2 ≠ "" ∧ g2 ≠ "") := by
                  rintro ⟨h1, _, _⟩
                  exact hcc h1.symm
                rw [if_neg hcond]
            · rw [if_neg hcg] at hm
              injection hm with hm2
              subst hm2
              rw [hih]
              have hcond : ¬(c2 = c ∧ c2 ≠ "" ∧ g2 ≠ "") := by
                rintro ⟨_, h2, h3⟩
                exact hcg ⟨h2, h3⟩
              rw [if_neg hcond]

theorem stripField_none_of_nonString {r : PyJson} {k : String}
    (h : fieldNonString r k = true) : stripField r k = none := by
  cases r with
  | obj fs =>
    simp only [fieldNonString] at h
    simp only [stripField]
    cases hF : dictFindJ fs k with
    | none => rw [hF] at h; simp at h
    | some v =>
      rw [hF] at h
      cases v with
      | str s => simp at h
      | null => rfl
      | bool b => rfl
      | num s => rfl
      | nan => rfl
      | inf b => rfl
      | arr xs => rfl
      | obj fs2 => rfl
  | null => simp [fieldNonString] at h
  | bool b => simp [fieldNonString] at h
  | num s => simp [fieldNonString] at h
  | nan => simp [fieldNonString] at h
  | inf b => simp [fieldNonString] at h
  | arr xs => simp [fieldNonString] at h
  | str s => simp [fieldNonString] at h

theorem processRecord_eq_none {st : GenState} {r : PyJson}
    (h : stripField r "Country" = none ∨ stripField r "Region" = none) :
    processRecord st r = none := by
  cases hC : stripField r "Country" with
  | none => simp [processRecord, hC]
  | some c =>
    cases hG : stripField r "Region" with
    | none => simp [processRecord, hC, hG]
    | some g =>
      rcases h with h | h
      · rw [hC] at h; cases h
      · rw [hG] at h; cases h

theorem processRecord_none_of_bad {r : PyJson}
    (hbad : fieldNonString r "Country" = true ∨ fieldNonString r "Region" = true)
    (st : GenState) : processRecord st r = none := by
  rcases hbad with h | h
  · exact processRecord_eq_none (Or.inl (stripField_none_of_nonString h))
  · exact processRecord_eq_none (Or.inr (stripField_none_of_nonString h))

theorem runRecords_none_of_mem {data : List PyJson} {r : PyJson} (hr : r ∈ data)
    (hnone : ∀ st, processRecord st r = none) (st : GenState) :
    runRecords st data = none := by
  induction data generalizing st with
  | nil => cases hr
  | cons r1 rest ih =>
    simp only [runRecords]
    cases hm : processRecord st r1 with
    | none => rfl
    | some st1 =>
      rcases List.mem_cons.mp hr with h1 | h1
      · have hcontra := hnone st
        rw [h1, hm] at hcontra
        cases hcontra
      · exact ih h1 st1

theorem containsStr_iff (l : List String) (a : String) :
    containsStr l a = true ↔ a ∈ l := by
  induction l with
  | nil => simp [containsStr]
  | cons x xs ih =>
    simp only [containsStr]
    by_cases h : x = a
    · simp [h]
    · rw [if_neg h]
      simp only [List.mem_cons, ih]
      constructor
      · intro h2; exact Or.inr h2
      · rintro (h2 | h2)
        · exact absurd h2.symm h
        · exact h2

theorem validateConsistent_iff (m : Mapping) :
    validateConsistent m = true ↔
      (∀ c ∈ allCountriesInRegions m, c ∈ mappingKeys m) ∧
        ∀ c ∈ mappingKeys m, c ∈ allCountriesInRegions m := by
  simp [validateConsistent, List.all_eq_true, containsStr_iff]

theorem mem_allCountriesInRegions (m : Mapping) (a : String) :
    a ∈ allCountriesInRegions m ↔ ∃ p ∈ m.region_to_countries, a ∈ p.2 := by
  simp only [allCountriesInRegions, List.mem_flatten, List.mem_map]
  constructor
  · rintro ⟨l, ⟨p, hp, rfl⟩, hal⟩
    exact ⟨p, hp, hal⟩
  · rintro ⟨p, hp, hap⟩
    exact ⟨p.2, ⟨p, hp, rfl⟩, hap⟩

theorem mem_freeze_countries (st : GenState) (a : String) :
    (∃ p ∈ (freeze st).region_to_countries, a ∈ p.2) ↔
      ∃ p ∈ st.region_to_countries, a ∈ p.2 := by
  simp only [freeze]
  constructor
  · rintro ⟨q, hq, haq⟩
    rcases List.mem_map.mp hq with ⟨p, hp, rfl⟩
    exact ⟨p, hp, (mem_sortStrings p.2 a).mp haq⟩
  · rintro ⟨p, hp, hap⟩
    exact ⟨(p.1, sortStrings p.2), List.mem_map.mpr ⟨p, hp, rfl⟩,
      (mem_sortStrings p.2 a).mpr hap⟩

/-- For every successfully generated mapping, the countries stored in the
region lists are exactly the keys of the country→region dict. -/
theorem generate_inv {data : List PyJson} {m : Mapping}
    (h : generate_country_mapping data = some m) (a : String) :
    (∃ p ∈ m.region_to_countries, a ∈ p.2) ↔ a ∈ mappingKeys m := by
  unfold generate_country_mapping at h
  cases hrun : runRecords initState data with
  | none => rw [hrun] at h; cases h
  | some st =>
    rw [hrun] at h
    injection h with h2
    subst h2
    have hinv := runRecords_inv hrun (by intro x; simp [initState, stInv])
    rw [mem_freeze_countries]
    exact hinv a

/-- C1: whenever the Region Mapping Generator processes an input list of
records successfully, its country→region mapping binds every country to the
`Region` value of the last record in input order whose trimmed `Country`
equals that country and whose trimmed `Country` and `Region` are both
non-empty — later records with the same country overwrite earlier ones
(and a country with no such record is absent). -/
theorem C1_last_write_wins (data : List PyJson) (m : Mapping)
    (h : generate_country_mapping data = some m) (c : String) :
    lookupStr m.country_to_region c = lastRegionFor data c := by
  unfold generate_country_mapping at h
  cases hrun : runRecords initState data with
  | none => rw [hrun] at h; cases h
  | some st =>
    rw [hrun] at h
    injection h with h2
    subst h2
    have hlook := runRecords_lookup hrun c
    show lookupStr st.country_to_region c = lastRegionFor data c
    rw [hlook]
    cases lastRegionFor data c with
    | some g => rfl
    | none => rfl

/-- Witness for C1 on a concrete input in which the country `Kenya` first
maps to `Africa` and then to `Americas`. -/
theorem C1_last_write_wins_witness :
    lookupStr kenyaTwiceMapping.country_to_region "Kenya" =
      lastRegionFor kenyaTwiceRecords "Kenya" :=
  C1_last_write_wins kenyaTwiceRecords kenyaTwiceMapping rfl "Kenya"

/-- C2 is false as stated: on the records `[X→A, X→B]` the generator
succeeds, `X` is a key of the country→region mapping, yet `X` appears in
the country lists of two regions, not exactly one. -/
theorem C2_counterexample :
    generate_country_mapping dupCountryRecords = some dupCountryMapping ∧
    "X" ∈ mappingKeys dupCountryMapping ∧
    (dupCountryMapping.region_to_countries.filter
      (fun p => p.2.contains "X")).length = 2 := by
  refine ⟨rfl, ?_, rfl⟩
  simp [dupCountryMapping, mappingKeys]

/-- C2 (amended): for every successfully processed input, a country is a
key of the country→region mapping exactly when it appears in at least one
region's country list; a country whose records carry two different regions
appears in more than one region's list. -/
theorem C2_key_iff_in_some_region (data : List PyJson) (m : Mapping)
    (h : generate_country_mapping data = some m) (c : String) :
    c ∈ mappingKeys m ↔ ∃ p ∈ m.region_to_countries, c ∈ p.2 :=
  (generate_inv h c).symm

/-- Witness for the amended C2 at a concrete input. -/
theorem C2_key_iff_in_some_region_witness : "X" ∈ mappingKeys dupCountryMapping :=
  (C2_key_iff_in_some_region dupCountryRecords dupCountryMapping rfl "X").mpr
    ⟨("A", ["X"]), by simp [dupCountryMapping], by simp⟩

/-- C3: for every successfully processed input, the set of countries
appearing across the lists of `region_to_countries` equals the key set of
`country_to_region`, and the set comparison performed by `validate_mapping`
(which only reports, never repairs) accepts the produced mapping. -/
theorem C3_consistency (data : List PyJson) (m : Mapping)
    (h : generate_country_mapping data = some m) :
    (∀ c, c ∈ allCountriesInRegions m ↔ c ∈ mappingKeys m) ∧
      validateConsistent m = true := by
  have hset : ∀ c, c ∈ allCountriesInRegions m ↔ c ∈ mappingKeys m := by
    intro c
    rw [mem_allCountriesInRegions]
    exact generate_inv h c
  refine ⟨hset, ?_⟩
  rw [validateConsistent_iff]
  exact ⟨fun c hc => (hset c).mp hc, fun c hc => (hset c).mpr hc⟩

/-- Witness for C3 at the spec's example input. -/
theorem C3_consistency_witness :
    ("Kenya" ∈ allCountriesInRegions exampleMapping ↔
      "Kenya" ∈ mappingKeys exampleMapping) ∧
      validateConsistent exampleMapping = true :=
  ⟨(C3_consistency exampleRecords exampleMapping rfl).1 "Kenya",
   (C3_consistency exampleRecords exampleMapping rfl).2⟩

/-- C4: on the records `[{"Country":"Kenya","Region":"Africa"},
{"Country":"Peru","Region":"Americas"}]` the generator produces exactly
the mapping with region lists `Africa → [Kenya]`, `Americas → [Peru]` and
country bindings `Kenya → Africa`, `Peru → Americas`. -/
theorem C4_example :
    generate_country_mapping exampleRecords = some exampleMapping := rfl

/-- C10: if any record of the input carries a `Country` or `Region` value
that is present but not a string, the whole generation fails through the
generic error path and returns null (no record is skipped, no output is
produced). -/
theorem C10_nonstring_fails (data : List PyJson) (r : PyJson) (hr : r ∈ data)
    (hbad : fieldNonString r "Country" = true ∨ fieldNonString r "Region" = true) :
    generate_country_mapping data = none := by
  unfold generate_country_mapping
  rw [runRecords_none_of_mem hr (processRecord_none_of_bad hbad) initState]

/-- Witness for C10: a record whose `Country` is `null` makes the whole run
return null. -/
theorem C10_nonstring_fails_witness :
    generate_country_mapping [badCountryRecord] = none :=
  C10_nonstring_fails [badCountryRecord] badCountryRecord
    (List.mem_singleton.mpr rfl) (Or.inl rfl)

/-- C5 is false as stated: the text `: NaN}` carries `NaN` after a colon
and before a closing brace (a recognized context) and the ladder removes
the token, but the repaired text `: null}` does not parse as JSON. -/
theorem C5_counterexample :
    hasSeq nanTok strayNanText = true ∧
    fixLadder strayNanText = ": null\x7d".data ∧
    pyParse (fixLadder strayNanText) = none :=
  ⟨rfl, rfl, rfl⟩

/-- C5 (amended): for every input text, the substitution ladder's output
contains no occurrence of the token `NaN`; the parse-success half of the
claim does not hold universally, but it holds on the spec's example —
`{"score": NaN}` is rewritten to `{"score": null}`, which parses to the
object binding `score` to null. -/
theorem C5_no_nan_and_example :
    (∀ l : List Char, hasSeq nanTok (fixLadder l) = false) ∧
    fixLadder scoreNanText = scoreNullText ∧
    pyParse scoreNullText = some (PyJson.obj [("score", PyJson.null)]) :=
  ⟨fixLadder_no_nan, rfl, rfl⟩

/-- C6 is false as stated: `{"a": "NaN"}` is already valid JSON, but the
repair substitutions rewrite it to `{"a": null}`, so the parsed value of
the repaired text differs from the parsed value of the original. -/
theorem C6_counterexample :
    pyParse quotedNanText = some (PyJson.obj [("a", PyJson.str "NaN")]) ∧
    fixLadder quotedNanText = "\x7b\"a\": null\x7d".data ∧
    pyParse (fixLadder quotedNanText) = some (PyJson.obj [("a", PyJson.null)]) ∧
    pyParse (fixLadder quotedNanText) ≠ pyParse quotedNanText := by
  refine ⟨rfl, rfl, rfl, ?_⟩
  intro h
  rw [show pyParse (fixLadder quotedNanText) =
        some (PyJson.obj [("a", PyJson.null)]) from rfl,
      show pyParse quotedNanText =
        some (PyJson.obj [("a", PyJson.str "NaN")]) from rfl] at h
  simp at h

/-- C6 (amended): for every input text that is valid JSON and contains
neither the substring `NaN` nor the substring `undefined`, the substitution
ladder leaves the text unchanged, so the parsed value of the repaired text
equals the parsed value of the original. -/
theorem C6_idempotent_without_tokens (l : List Char) (v : PyJson)
    (h1 : hasSeq nanTok l = false) (h2 : hasSeq undefTok l = false)
    (hv : pyParse l = some v) :
    fixLadder l = l ∧ pyParse (fixLadder l) = some v := by
  have he := fixLadder_id h1 h2
  exact ⟨he, by rw [he]; exact hv⟩

/-- Witness for the amended C6 at a concrete valid JSON text. -/
theorem C6_idempotent_without_tokens_witness :
    fixLadder plainJsonText = plainJsonText ∧
    pyParse (fixLadder plainJsonText) = some (PyJson.obj [("a", PyJson.num "1")]) :=
  C6_idempotent_without_tokens plainJsonText (PyJson.obj [("a", PyJson.num "1")])
    rfl rfl rfl

/-- C9: the aggressive second cleaning pass is a no-op — after the ladder
the text contains no `NaN`, the aggressive regex leaves it unchanged, and
the second parse attempt receives exactly the same text as the first; so
whenever the first post-substitution parse fails, the second fails too and
the function returns null. -/
theorem C9_aggressive_noop (content : List Char)
    (h : pyParse (fixLadder content) = none) :
    hasSeq nanTok (fixLadder content) = false ∧
    aggressiveClean (fixLadder content) = fixLadder content ∧
    fix_json_parsePhase content = none := by
  have hno := fixLadder_no_nan content
  have hagg := aggressiveClean_id hno
  refine ⟨hno, hagg, ?_⟩
  simp only [fix_json_parsePhase]
  rw [h, hagg, h]

/-- Witness for C9 at the unparsable one-character text `{` (escaped). -/
theorem C9_aggressive_noop_witness :
    hasSeq nanTok (fixLadder ['\x7b']) = false ∧
    aggressiveClean (fixLadder ['\x7b']) = fixLadder ['\x7b'] ∧
    fix_json_parsePhase ['\x7b'] = none :=
  C9_aggressive_noop ['\x7b'] rfl

/-- C7: the Sheet Converter emits the flat record list when the workbook
has exactly one sheet, and the sheet-name-keyed mapping when it has more
than one; in both cases each column label that is a key of the fixed
rename table is replaced by the table's value and every other label passes
through unchanged. -/
theorem C7_single_multi_rename {Cell : Type} (wb : List (String × DataFrame Cell)) :
    (∀ n df, wb = [(n, df)] →
      excel_to_json_refined wb =
        ConvOut.single (toRecords (renameCols column_mapping df))) ∧
    (1 < wb.length →
      excel_to_json_refined wb =
        ConvOut.multi (wb.map (fun p => (p.1, toRecords (renameCols column_mapping p.2))))) ∧
    (∀ df : DataFrame Cell, ∀ i : Nat,
      (renameCols column_mapping df).cols[i]? =
        df.cols[i]?.map (renameOne column_mapping)) ∧
    (∀ c : String,
      ((∃ v, (c, v) ∈ column_mapping) →
        (c, renameOne column_mapping c) ∈ column_mapping) ∧
      (c ∉ column_mapping.map (fun p => p.1) → renameOne column_mapping c = c)) := by
  refine ⟨?_, ?_, ?_, ?_⟩
  · rintro n df rfl
    rfl
  · intro hlen
    cases wb with
    | nil => simp at hlen
    | cons p rest =>
      cases rest with
      | nil => simp at hlen
      | cons q rest2 => rfl
  · intro df i
    simp [renameCols]
  · intro c
    constructor
    · rintro ⟨v, hv⟩
      cases hf : column_mapping.find? (fun p => p.1 == c) with
      | none =>
        exfalso
        have hnone := List.find?_eq_none.mp hf (c, v) hv
        simp at hnone
      | some p =>
        have hp := List.mem_of_find?_eq_some hf
        have hpc : p.1 = c := by
          have := List.find?_some hf
          simpa using this
        unfold renameOne
        rw [hf, ← hpc]
        exact hp
    · intro hnk
      unfold renameOne
      cases hf : column_mapping.find? (fun p => p.1 == c) with
      | none => rfl
      | some p =>
        exfalso
        have hp := List.mem_of_find?_eq_some hf
        have hpc : p.1 = c := by
          have := List.find?_some hf
          simpa using this
        exact hnk (List.mem_map.mpr ⟨p, hp, hpc⟩)

/-- Witness for C7: converting the one-sheet workbook `wbSingle` renames
the matched column, passes the other through, and emits the flat record
list. -/
theorem C7_single_multi_rename_witness :
    excel_to_json_refined wbSingle =
      ConvOut.single [[("SDGs addressed", 1), ("Country", 2)],
                      [("SDGs addressed", 3), ("Country", 4)]] := by
  rw [(C7_single_multi_rename wbSingle).1 "Sheet1" sheetOneFrame rfl]
  rfl

/-- C8: the Structure Inspector never lets an exception escape to its
caller: a missing file yields a reported error and null, an unparsable text
yields null, and on every input the function returns either the parsed
data or null — each raising operation of the body is modelled in `Option`
and the single broad handler catches them all. -/
theorem C8_never_raises (input : FileInput) :
    (input = FileInput.missing → check_json_structure input = none) ∧
    (∀ text, input = FileInput.content text → pyParse text = none →
      check_json_structure input = none) ∧
    (check_json_structure input = none ∨
      ∃ text v, input = FileInput.content text ∧ pyParse text = some v ∧
        check_json_structure input = some v) := by
  refine ⟨?_, ?_, ?_⟩
  · rintro rfl
    rfl
  · rintro text rfl hp
    simp [check_json_structure, hp]
  · cases input with
    | missing => exact Or.inl rfl
    | content text =>
      cases hp : pyParse text with
      | none => exact Or.inl (by simp [check_json_structure, hp])
      | some v =>
        cases hb : inspectBody v with
        | none => exact Or.inl (by simp [check_json_structure, hp, hb])
        | some u =>
          exact Or.inr ⟨text, v, rfl, hp,
            by simp [check_json_structure, hp, hb]⟩

/-- Witness for C8: a missing file produces a null result, not a crash. -/
theorem C8_never_raises_witness :
    check_json_structure FileInput.missing = none :=
  (C8_never_raises FileInput.missing).1 rfl
